import Mathlib

/-
Verification of the AnswerValidator core of jp_tutor.py (Japanese Tutor CLI,
Lesson 1).  Strings are modelled as lists of Unicode scalar values
(`List Char`).  The Python standard-library text primitives that the source
calls (`unicodedata.normalize("NFKC", ·)`, `str.lower`, the regex classes
`\s`, `.`, `[a-z]`, and the two concrete anchored patterns of
`check_self_intro`) are modelled faithfully on the character repertoire
exercised by this development; every other codepoint is a fixed point of the
modelled primitives, matching real Unicode for the characters that occur in
the statements below.
-/

namespace JpTutor

/-- Whitespace test of the regex class backslash-s for Python `str` patterns:
ASCII whitespace, NEL, NBSP, ogham space, the U+2000 range, line and
paragraph separators, narrow and medium spaces, and the ideographic space. -/
def isSpaceB (c : Char) : Bool :=
  let n := c.toNat
  n = 0x20 || (0x9 ≤ n && n ≤ 0xD) || n = 0x85 || n = 0xA0 || n = 0x1680 ||
  (0x2000 ≤ n && n ≤ 0x200A) || n = 0x2028 || n = 0x2029 || n = 0x202F ||
  n = 0x205F || n = 0x3000

/-- Compatibility mapping step of NFKC, restricted to the repertoire of this
development: the half-width katakana that occur in the statements decompose
to their full-width forms (their real NFKC images); every other modelled
codepoint is compatibility-stable. -/
def nfkcChar (c : Char) : Char :=
  if c = 'ｺ' then 'コ'
  else if c = 'ﾝ' then 'ン'
  else if c = 'ﾆ' then 'ニ'
  else if c = 'ﾁ' then 'チ'
  else if c = 'ﾊ' then 'ハ'
  else c

/-- Canonical composition step of NFKC on the modelled repertoire: the only
composable pair among the modelled characters is U+006A (j) followed by
U+030C (combining caron), whose primary composite is U+01F0 (j with caron),
exactly as in the Unicode composition tables. -/
def nfkcComposeAux : Char → List Char → List Char
  | c, [] => [c]
  | c, d :: rest =>
    if c.toNat = 0x6A ∧ d.toNat = 0x30C then nfkcComposeAux (Char.ofNat 0x1F0) rest
    else c :: nfkcComposeAux d rest

def nfkcCompose : List Char → List Char
  | [] => []
  | c :: rest => nfkcComposeAux c rest

/-- Model of `unicodedata.normalize("NFKC", text)`: compatibility mapping
followed by canonical composition. -/
def normalize_nfkc (text : List Char) : List Char :=
  nfkcCompose (text.map nfkcChar)

/-- Per-character conversion of `katakana_to_hiragana`: the katakana block
U+30A1..U+30F3 moves down by 0x60, the small ka and small ke map to their
hiragana forms, everything else is returned unchanged. -/
def kataHiraChar (ch : Char) : Char :=
  if 0x30A1 ≤ ch.toNat ∧ ch.toNat ≤ 0x30F3 then Char.ofNat (ch.toNat - 0x60)
  else if ch = 'ヵ' then 'ゕ'
  else if ch = 'ヶ' then 'ゖ'
  else ch

/-- `katakana_to_hiragana`: the source loops over the text appending the
converted character to an accumulator list and joins the result. -/
def katakana_to_hiragana (text : List Char) : List Char :=
  text.foldl (fun acc ch => acc ++ [kataHiraChar ch]) []

/-- Model of `str.lower` on the modelled repertoire: ASCII capitals move
down by 0x20; every other modelled character is uncased or already
lowercase and is returned unchanged. -/
def lowerChar (c : Char) : Char :=
  if 0x41 ≤ c.toNat ∧ c.toNat ≤ 0x5A then Char.ofNat (c.toNat + 0x20) else c

def str_lower (text : List Char) : List Char :=
  text.map lowerChar

/-- `to_hiragana_lower`: NFKC, then katakana folding, then lowercasing. -/
def to_hiragana_lower (text : List Char) : List Char :=
  str_lower (katakana_to_hiragana (normalize_nfkc text))

/-- Replace every maximal whitespace run by a single space,
as `re.sub(r"\s+", " ", text)` does. -/
def collapseAux : Bool → List Char → List Char
  | _, [] => []
  | inRun, c :: rest =>
    if isSpaceB c then
      if inRun then collapseAux true rest else ' ' :: collapseAux true rest
    else c :: collapseAux false rest

/-- `str.strip`: remove leading and trailing whitespace. -/
def stripStr (l : List Char) : List Char :=
  ((l.dropWhile isSpaceB).reverse.dropWhile isSpaceB).reverse

/-- `collapse_spaces`: collapse whitespace runs to single spaces, then strip. -/
def collapse_spaces (text : List Char) : List Char :=
  stripStr (collapseAux false text)

/-- `strip_all_spaces`: `re.sub(r"\s+", "", text)` removes every whitespace
character. -/
def strip_all_spaces (text : List Char) : List Char :=
  text.filter (fun c => !isSpaceB c)

/-- The regex class `[a-z]` used by the romaji branches. -/
def latinB (c : Char) : Bool :=
  0x61 ≤ c.toNat && c.toNat ≤ 0x7A

/-- `re.sub(r"[^a-z]", "", text)` keeps exactly the ASCII lowercase
letters. -/
def latin_only (text : List Char) : List Char :=
  text.filter latinB

def greetOkMsg : List Char := "좋아요! こんにちは".toList

def squote : Char := Char.ofNat 0x27

def greetMistakeMsg : List Char :=
  "거의 맞았어요! ".toList ++ [squote, 'w', 'a', squote] ++ "는 は로 씁니다: こんにちは".toList

def greetHintMsg : List Char :=
  "힌트: 낮 인사(こんにちは). ".toList ++ [squote, 'w', 'a', squote] ++ " 표기는 は를 사용해요.".toList

/-- The romaji comparison string of `check_greeting`:
`re.sub(r"[^a-z]", "", normalize_nfkc(answer).lower())`. -/
def greeting_rom (answer : List Char) : List Char :=
  latin_only (str_lower (normalize_nfkc answer))

/-- `check_greeting`: exact kana match, then the わ-substitution mistake,
then (when allowed) the romaji comparison, then the generic hint. -/
def check_greeting (answer : List Char) (allow_romaji : Bool) : Bool × List Char :=
  let hira := to_hiragana_lower answer
  let hira_nospace := strip_all_spaces hira
  if hira_nospace = "こんにちは".toList then (true, greetOkMsg)
  else if hira_nospace = "こんにちわ".toList then (false, greetMistakeMsg)
  else if allow_romaji then
    if greeting_rom answer = "konnichiwa".toList then (true, greetOkMsg)
    else (false, greetHintMsg)
  else (false, greetHintMsg)

/-- First step of the anchored Japanese pattern of `check_self_intro`: the
pronoun alternation.  No two of the four alternatives can both start the
same string, so trying them in the written order matches the regex engine. -/
def dropPronoun (s : List Char) : Option (List Char) :=
  if ("わたし".toList).isPrefixOf s then some (s.drop 3)
  else if ("私".toList).isPrefixOf s then some (s.drop 1)
  else if ("ぼく".toList).isPrefixOf s then some (s.drop 2)
  else if ("わたくし".toList).isPrefixOf s then some (s.drop 4)
  else none

/-- Tail of the Japanese pattern after the captured name:
whitespace, です, an optional 。 or ., trailing whitespace, end of string. -/
def desuTail (t : List Char) : Bool :=
  match t.dropWhile isSpaceB with
  | 'で' :: 'す' :: v =>
    (match v with
     | [] => true
     | p :: w => if p = '。' || p = '.' then w.all isSpaceB else v.all isSpaceB)
  | _ => false

/-- The lazy capture `(.+?)`: grow the captured text one character at a
time, shortest first, until the tail of the pattern matches; the dot does
not match a newline. -/
def lazyCapture : List Char → Option (List Char)
  | [] => none
  | c :: rest =>
    if c = '\n' then none
    else if desuTail rest then some [c]
    else
      match lazyCapture rest with
      | some nm => some (c :: nm)
      | none => none

/-- The greedy whitespace run before the capture: try consuming k spaces for
k from the full run down to zero, handing the remainder to the lazy
capture; the first success in this order is the regex engine's match. -/
def tryDrops (r : List Char) : Nat → Option (List Char)
  | 0 => lazyCapture r
  | k + 1 =>
    match lazyCapture (r.drop (k + 1)) with
    | some nm => some nm
    | none => tryDrops r k

/-- Model of the anchored Python pattern
`(わたし|私|ぼく|わたくし)\s*は\s*(.+?)\s*です[。.]?\s*` matched against the
whole string; returns the captured name of the leftmost match. -/
def jp_match (s : List Char) : Option (List Char) :=
  match dropPronoun s with
  | none => none
  | some t =>
    match t.dropWhile isSpaceB with
    | 'は' :: r => tryDrops r (r.takeWhile isSpaceB).length
    | _ => none

/-- Pronoun alternation of the romaji pattern; the three alternatives are
pairwise non-overlapping as prefixes. -/
def dropRomPronoun (s : List Char) : Option (List Char) :=
  if ("watashi".toList).isPrefixOf s then some (s.drop 7)
  else if ("boku".toList).isPrefixOf s then some (s.drop 4)
  else if ("watakushi".toList).isPrefixOf s then some (s.drop 9)
  else none

/-- Tail of the romaji pattern after the capture: at least one whitespace
character, desu, an optional period, end of string. -/
def romTail (t : List Char) : Bool :=
  match t with
  | [] => false
  | c :: _ =>
    if isSpaceB c then
      match t.dropWhile isSpaceB with
      | 'd' :: 'e' :: 's' :: 'u' :: v =>
        (match v with
         | [] => true
         | ['.'] => true
         | _ => false)
      | _ => false
    else false

def romLazyCapture : List Char → Option (List Char)
  | [] => none
  | c :: rest =>
    if c = '\n' then none
    else if romTail rest then some [c]
    else
      match romLazyCapture rest with
      | some nm => some (c :: nm)
      | none => none

/-- The greedy whitespace run before the romaji capture, at least one
character long: try k spaces for k from the full run down to one. -/
def romTryDrops (r : List Char) : Nat → Option (List Char)
  | 0 => none
  | k + 1 =>
    match romLazyCapture (r.drop (k + 1)) with
    | some nm => some nm
    | none => romTryDrops r k

/-- Model of the anchored Python pattern
`(watashi|boku|watakushi)\s+wa\s+(.+?)\s+desu\.?` matched against the whole
string; returns the captured name of the leftmost match. -/
def rom_match (s : List Char) : Option (List Char) :=
  match dropRomPronoun s with
  | none => none
  | some t =>
    match t with
    | [] => none
    | c :: _ =>
      if isSpaceB c then
        match t.dropWhile isSpaceB with
        | 'w' :: 'a' :: r => romTryDrops r (r.takeWhile isSpaceB).length
        | _ => none
      else none

def introOkMsg : List Char := "좋아요! 자연스러워요.".toList

def introPatMsg : List Char :=
  "패턴: わたしは [이름] です。 (romaji: watashi wa [name] desu)".toList

/-- Continuation of `check_self_intro` after the Japanese path has not
returned: the optional romaji path, then the failure result. -/
def introRest (raw : List Char) (allow_romaji : Bool) :
    Bool × List Char × Option (List Char) :=
  if allow_romaji then
    match rom_match (collapse_spaces (str_lower raw)) with
    | some name => (true, introOkMsg, some name)
    | none => (false, introPatMsg, none)
  else (false, introPatMsg, none)

/-- `check_self_intro`: NFKC, katakana folding, whitespace collapsing, the
Japanese pattern with its truthiness test on the captured name, then the
romaji path, then failure. -/
def check_self_intro (answer : List Char) (allow_romaji : Bool) :
    Bool × List Char × Option (List Char) :=
  let raw := normalize_nfkc answer
  let kana := katakana_to_hiragana raw
  match jp_match (collapse_spaces kana) with
  | some name =>
    if name ≠ [] then (true, introOkMsg, some name) else introRest raw allow_romaji
  | none => introRest raw allow_romaji

/-- Split on single whitespace characters; together with the empty-token
filter below this is `re.split(r"\s+", ·)` restricted to its non-empty
pieces. -/
def splitWsAux : List Char → List Char → List (List Char)
  | acc, [] => [acc.reverse]
  | acc, c :: rest =>
    if isSpaceB c then acc.reverse :: splitWsAux [] rest
    else splitWsAux (c :: acc) rest

def splitWs (s : List Char) : List (List Char) :=
  (splitWsAux [] s).filter (fun t => !t.isEmpty)

def vowelTarget : List (List Char) := [['あ'], ['い'], ['う'], ['え'], ['お']]

/-- The token list of `check_vowels`: NFKC, katakana folding, strip, split
on whitespace keeping non-empty tokens, and when a single token remains,
re-split it into its characters. -/
def vowelTokens (answer : List Char) : List (List Char) :=
  let raw := normalize_nfkc answer
  let hira := katakana_to_hiragana raw
  let ts := splitWs (stripStr hira)
  match ts with
  | [t] => t.map (fun c => [c])
  | _ => ts

def vowelOkMsg : List Char := "완벽해요! あ い う え お".toList

def vowelAnsMsg : List Char := "정답: あ い う え お (romaji: a i u e o)".toList

/-- Python `str(n)` for the 1-based positions of the hint. -/
def decStr (n : Nat) : List Char := Nat.toDigits 10 n

/-- One entry of the positional hint, the f-string of the source: the
1-based position, 번째는, and the expected character. -/
def wrongEntry (idx : Nat) (exp : List Char) : List Char :=
  decStr idx ++ "번째는 ".toList ++ exp

/-- The positional diff of `check_vowels`: walk the zipped token and target
lists with a 1-based index, recording an entry for every mismatch. -/
def vowelWrongAux : Nat → List (List Char) → List (List Char) → List (List Char)
  | _, [], _ => []
  | _, _ :: _, [] => []
  | idx, got :: gs, exp :: es =>
    if got ≠ exp then wrongEntry idx exp :: vowelWrongAux (idx + 1) gs es
    else vowelWrongAux (idx + 1) gs es

/-- The hint string: 힌트, then the entries joined by comma and space. -/
def vowelHint (wrong : List (List Char)) : List Char :=
  "힌트: ".toList ++ List.intercalate (", ".toList) wrong

/-- Shared fall-through of `check_vowels` once the exact and romaji
comparisons have failed: the positional hint when exactly five tokens are
present and at least one mismatches, otherwise the generic answer. -/
def vowelDiff (tokens : List (List Char)) : Bool × List Char :=
  if tokens.length = 5 then
    let wrong := vowelWrongAux 1 tokens vowelTarget
    if wrong ≠ [] then (false, vowelHint wrong) else (false, vowelAnsMsg)
  else (false, vowelAnsMsg)

/-- `check_vowels`: exact token comparison, then (when allowed) the romaji
comparison, then the positional diff. -/
def check_vowels (answer : List Char) (allow_romaji : Bool) : Bool × List Char :=
  let tokens := vowelTokens answer
  if tokens = vowelTarget then (true, vowelOkMsg)
  else if allow_romaji then
    if latin_only (str_lower (normalize_nfkc answer)) = "aiueo".toList then (true, vowelOkMsg)
    else vowelDiff tokens
  else vowelDiff tokens

/-- Unpacking `Char.ofNat` at a valid codepoint. -/
theorem charToNatOfNat {n : Nat} (h : n.isValidChar) : (Char.ofNat n).toNat = n := by
  simp only [Char.ofNat, dif_pos h, Char.ofNatAux, Char.toNat, UInt32.toNat]
  simp [BitVec.toNat_ofNatLt]

theorem charEqIffToNat {c d : Char} : c = d ↔ c.toNat = d.toNat :=
  ⟨fun h => by rw [h], fun h => Char.eq_of_val_eq (UInt32.ext h)⟩

theorem validCharOfLtSurrogate {n : Nat} (h : n < 0xD800) : n.isValidChar := Or.inl h

/-- The four-way shape of `kataHiraChar`, with codepoint arithmetic made
explicit. -/
theorem kataHiraChar_shape (c : Char) :
    (0x30A1 ≤ c.toNat ∧ c.toNat ≤ 0x30F3 ∧ (kataHiraChar c).toNat = c.toNat - 0x60) ∨
    (c.toNat = 0x30F5 ∧ (kataHiraChar c).toNat = 0x3095) ∨
    (c.toNat = 0x30F6 ∧ (kataHiraChar c).toNat = 0x3096) ∨
    kataHiraChar c = c := by
  unfold kataHiraChar
  split_ifs with h1 h2 h3
  · exact Or.inl ⟨h1.1, h1.2, charToNatOfNat (validCharOfLtSurrogate (by omega))⟩
  · refine Or.inr (Or.inl ⟨?_, ?_⟩)
    · rw [charEqIffToNat] at h2; exact h2
    · decide
  · refine Or.inr (Or.inr (Or.inl ⟨?_, ?_⟩))
    · rw [charEqIffToNat] at h3; exact h3
    · decide
  · exact Or.inr (Or.inr (Or.inr rfl))

theorem kataHiraChar_fix {c : Char} (h1 : ¬(0x30A1 ≤ c.toNat ∧ c.toNat ≤ 0x30F3))
    (h2 : c.toNat ≠ 0x30F5) (h3 : c.toNat ≠ 0x30F6) : kataHiraChar c = c := by
  unfold kataHiraChar
  rw [if_neg h1, if_neg, if_neg]
  · rw [charEqIffToNat]; simpa using h3
  · rw [charEqIffToNat]; simpa using h2

theorem lowerChar_fix {c : Char} (h : ¬(0x41 ≤ c.toNat ∧ c.toNat ≤ 0x5A)) :
    lowerChar c = c := by
  unfold lowerChar; rw [if_neg h]

/-- The two-way shape of `lowerChar`. -/
theorem lowerChar_shape (c : Char) :
    (0x41 ≤ c.toNat ∧ c.toNat ≤ 0x5A ∧ (lowerChar c).toNat = c.toNat + 0x20) ∨
    lowerChar c = c := by
  unfold lowerChar
  split_ifs with h1
  · exact Or.inl ⟨h1.1, h1.2, charToNatOfNat (validCharOfLtSurrogate (by omega))⟩
  · exact Or.inr rfl

theorem lowerChar_idem (c : Char) : lowerChar (lowerChar c) = lowerChar c := by
  rcases lowerChar_shape c with ⟨_, _, h⟩ | h
  · exact lowerChar_fix (by omega)
  · rw [h, h]

theorem kataHiraChar_idem (c : Char) : kataHiraChar (kataHiraChar c) = kataHiraChar c := by
  rcases kataHiraChar_shape c with ⟨_, _, h⟩ | ⟨_, h⟩ | ⟨_, h⟩ | h
  · exact kataHiraChar_fix (by omega) (by omega) (by omega)
  · exact kataHiraChar_fix (by omega) (by omega) (by omega)
  · exact kataHiraChar_fix (by omega) (by omega) (by omega)
  · rw [h, h]

/-- Katakana folding fixes the image of lowercasing a folded character. -/
theorem kataHira_lower_kataHira (c : Char) :
    kataHiraChar (lowerChar (kataHiraChar c)) = lowerChar (kataHiraChar c) := by
  rcases kataHiraChar_shape c with ⟨h1, h2, h⟩ | ⟨_, h⟩ | ⟨_, h⟩ | h
  · have hl : lowerChar (kataHiraChar c) = kataHiraChar c := lowerChar_fix (by omega)
    rw [hl]; exact kataHiraChar_fix (by omega) (by omega) (by omega)
  · have hl : lowerChar (kataHiraChar c) = kataHiraChar c := lowerChar_fix (by omega)
    rw [hl]; exact kataHiraChar_fix (by omega) (by omega) (by omega)
  · have hl : lowerChar (kataHiraChar c) = kataHiraChar c := lowerChar_fix (by omega)
    rw [hl]; exact kataHiraChar_fix (by omega) (by omega) (by omega)
  · rw [h]
    rcases lowerChar_shape c with ⟨_, _, hl⟩ | hl
    · exact kataHiraChar_fix (by omega) (by omega) (by omega)
    · rw [hl]; exact h

theorem kataHira_foldl_append (l : List Char) :
    ∀ acc : List Char,
      l.foldl (fun acc ch => acc ++ [kataHiraChar ch]) acc = acc ++ l.map kataHiraChar := by
  induction l with
  | nil => intro acc; simp
  | cons c t ih =>
    intro acc
    simp only [List.foldl_cons, List.map_cons]
    rw [ih (acc ++ [kataHiraChar c])]
    simp

/-- The accumulator loop of the source is a per-character map. -/
theorem kataHira_eq_map (l : List Char) :
    katakana_to_hiragana l = l.map kataHiraChar := by
  unfold katakana_to_hiragana
  simpa using kataHira_foldl_append l []

/-- Two maps filtered by the same test agree when the test cannot tell the
two mapped characters apart and selected characters coincide. -/
theorem filter_map_congr {α β : Type} (f g : α → β) (p : β → Bool)
    (h : ∀ a, p (f a) = p (g a) ∧ (p (g a) = true → f a = g a)) :
    ∀ l : List α, (l.map f).filter p = (l.map g).filter p := by
  intro l
  induction l with
  | nil => rfl
  | cons a t ih =>
    simp only [List.map_cons, List.filter_cons]
    rcases h a with ⟨h1, h2⟩
    by_cases hp : p (g a) = true
    · rw [h1, hp, h2 hp, ih]
    · rw [Bool.not_eq_true] at hp
      rw [h1, hp, ih]
      simp

/-- Filtering by `p` is unaffected by first filtering by a weaker test `q`. -/
theorem filter_through {α : Type} (p q : α → Bool) (hpq : ∀ a, p a = true → q a = true) :
    ∀ l : List α, l.filter p = (l.filter q).filter p := by
  intro l
  induction l with
  | nil => rfl
  | cons a t ih =>
    by_cases hq : q a = true
    · by_cases hp : p a = true
      · simp [List.filter_cons, hq, hp, ih]
      · rw [Bool.not_eq_true] at hp
        simp [List.filter_cons, hq, hp, ih]
    · have hp : p a = false := by
        cases hpa : p a
        · rfl
        · exact absurd (hpq a hpa) hq
      rw [Bool.not_eq_true] at hq
      simp [List.filter_cons, hq, hp, ih]

theorem map_congr_fun {α β : Type} (f g : α → β) (h : ∀ a, f a = g a) :
    ∀ l : List α, l.map f = l.map g := by
  intro l
  induction l with
  | nil => rfl
  | cons a t ih => simp only [List.map_cons, h a, ih]

/-- Folding twice and lowercasing twice changes nothing beyond the first
fold-and-lowercase pass. -/
theorem lower_kata_lower_kata (l : List Char) :
    str_lower (katakana_to_hiragana (str_lower (katakana_to_hiragana l))) =
      str_lower (katakana_to_hiragana l) := by
  simp only [kataHira_eq_map, str_lower, List.map_map]
  apply map_congr_fun
  intro c
  show lowerChar (kataHiraChar (lowerChar (kataHiraChar c))) = lowerChar (kataHiraChar c)
  rw [kataHira_lower_kataHira c, lowerChar_idem]

theorem latinB_false {c : Char} (h : 0x7A < c.toNat) : latinB c = false := by
  rw [Bool.eq_false_iff]
  intro hh
  simp only [latinB, Bool.and_eq_true, decide_eq_true_eq] at hh
  omega

/-- Katakana folding is invisible to the `[a-z]` filter applied after
lowercasing: folded characters are never ASCII letters, and characters that
lowercase into `[a-z]` are untouched by the fold. -/
theorem latinB_lower_kata (c : Char) :
    latinB (lowerChar (kataHiraChar c)) = latinB (lowerChar c) ∧
    (latinB (lowerChar c) = true → lowerChar (kataHiraChar c) = lowerChar c) := by
  rcases kataHiraChar_shape c with ⟨h1, h2, h⟩ | ⟨h1, h⟩ | ⟨h1, h⟩ | h
  · have hc : lowerChar c = c := lowerChar_fix (by omega)
    have hk : lowerChar (kataHiraChar c) = kataHiraChar c := lowerChar_fix (by omega)
    rw [hc, hk]
    constructor
    · rw [latinB_false (show 0x7A < (kataHiraChar c).toNat by omega),
        latinB_false (by omega)]
    · intro hl
      rw [latinB_false (by omega)] at hl
      exact absurd hl (by simp)
  · have hc : lowerChar c = c := lowerChar_fix (by omega)
    have hk : lowerChar (kataHiraChar c) = kataHiraChar c := lowerChar_fix (by omega)
    rw [hc, hk]
    constructor
    · rw [latinB_false (show 0x7A < (kataHiraChar c).toNat by omega),
        latinB_false (by omega)]
    · intro hl
      rw [latinB_false (by omega)] at hl
      exact absurd hl (by simp)
  · have hc : lowerChar c = c := lowerChar_fix (by omega)
    have hk : lowerChar (kataHiraChar c) = kataHiraChar c := lowerChar_fix (by omega)
    rw [hc, hk]
    constructor
    · rw [latinB_false (show 0x7A < (kataHiraChar c).toNat by omega),
        latinB_false (by omega)]
    · intro hl
      rw [latinB_false (by omega)] at hl
      exact absurd hl (by simp)
  · rw [h]
    exact ⟨rfl, fun _ => rfl⟩

theorem latinB_not_space (c : Char) (h : latinB c = true) : (!isSpaceB c) = true := by
  simp only [latinB, Bool.and_eq_true, decide_eq_true_eq] at h
  cases hs : isSpaceB c
  · rfl
  · exfalso
    simp only [isSpaceB, Bool.or_eq_true, Bool.and_eq_true, decide_eq_true_eq] at hs
    omega

/-- An answer whose comparable form, with whitespace removed, is the pure
kana string こんにちわ has no ASCII letters anywhere, so the romaji string of
`check_greeting` is empty for it. -/
theorem rom_nil_of_mistake (answer : List Char)
    (h : strip_all_spaces (to_hiragana_lower answer) = "こんにちわ".toList) :
    greeting_rom answer = [] := by
  unfold to_hiragana_lower at h
  unfold greeting_rom
  have e1 : latin_only (str_lower (normalize_nfkc answer)) =
      latin_only (str_lower (katakana_to_hiragana (normalize_nfkc answer))) := by
    rw [kataHira_eq_map]
    unfold latin_only str_lower
    rw [List.map_map]
    exact filter_map_congr lowerChar (lowerChar ∘ kataHiraChar) latinB
      (fun a => ⟨(latinB_lower_kata a).1.symm,
        fun hb => ((latinB_lower_kata a).2 ((latinB_lower_kata a).1 ▸ hb)).symm⟩)
      (normalize_nfkc answer)
  have e2 : latin_only (str_lower (katakana_to_hiragana (normalize_nfkc answer))) =
      latin_only (strip_all_spaces (str_lower (katakana_to_hiragana (normalize_nfkc answer)))) := by
    unfold latin_only strip_all_spaces
    exact filter_through latinB (fun c => !isSpaceB c) latinB_not_space _
  rw [e1, e2, h]
  decide

/-- An empty positional diff over lists of equal length means the lists are
equal. -/
theorem vowelWrongAux_nil_eq :
    ∀ (toks exp : List (List Char)) (idx : Nat), toks.length = exp.length →
      vowelWrongAux idx toks exp = [] → toks = exp := by
  intro toks
  induction toks with
  | nil =>
    intro exp idx hlen _
    cases exp with
    | nil => rfl
    | cons e es => simp at hlen
  | cons g gs ih =>
    intro exp idx hlen hnil
    cases exp with
    | nil => simp at hlen
    | cons e es =>
      simp only [vowelWrongAux] at hnil
      by_cases hge : g = e
      · subst hge
        rw [if_neg (by simp)] at hnil
        rw [ih es (idx + 1) (by simpa using hlen) hnil]
      · rw [if_pos hge] at hnil
        exact absurd hnil (by simp)

theorem vowelHint_ne_nil (w : List (List Char)) : vowelHint w ≠ [] := by
  unfold vowelHint
  intro hc
  exact absurd (List.append_eq_nil.mp hc).1 (by decide)

/-- C1: `katakana_to_hiragana` maps every character whose codepoint lies in
U+30A1..U+30F3 to the character at codepoint minus 0x60, maps U+30F5 to
U+3095 and U+30F6 to U+3096, and leaves every other character of the input
unchanged. -/
theorem katakana_to_hiragana_charwise (s : List Char) :
    katakana_to_hiragana s = s.map (fun c =>
      if 0x30A1 ≤ c.toNat ∧ c.toNat ≤ 0x30F3 then Char.ofNat (c.toNat - 0x60)
      else if c.toNat = 0x30F5 then Char.ofNat 0x3095
      else if c.toNat = 0x30F6 then Char.ofNat 0x3096
      else c) := by
  rw [kataHira_eq_map]
  apply map_congr_fun
  intro c
  unfold kataHiraChar
  by_cases h1 : 0x30A1 ≤ c.toNat ∧ c.toNat ≤ 0x30F3
  · rw [if_pos h1, if_pos h1]
  · rw [if_neg h1, if_neg h1]
    by_cases h2 : c.toNat = 0x30F5
    · have h2' : c = 'ヵ' := charEqIffToNat.mpr (by rw [h2]; decide)
      rw [if_pos h2', if_pos h2]
    · have h2' : c ≠ 'ヵ' := fun hc => h2 (by rw [charEqIffToNat.mp hc]; decide)
      rw [if_neg h2', if_neg h2]
      by_cases h3 : c.toNat = 0x30F6
      · have h3' : c = 'ヶ' := charEqIffToNat.mpr (by rw [h3]; decide)
        rw [if_pos h3', if_pos h3]
      · have h3' : c ≠ 'ヶ' := fun hc => h3 (by rw [charEqIffToNat.mp hc]; decide)
        rw [if_neg h3', if_neg h3]

/-- C1 witness: the characterisation applied to a concrete mixed string of
katakana, the two small-kana special cases, hiragana and Latin. -/
theorem katakana_to_hiragana_charwise_witness :
    katakana_to_hiragana ("カヵヶあz".toList) = ("カヵヶあz".toList).map (fun c =>
      if 0x30A1 ≤ c.toNat ∧ c.toNat ≤ 0x30F3 then Char.ofNat (c.toNat - 0x60)
      else if c.toNat = 0x30F5 then Char.ofNat 0x3095
      else if c.toNat = 0x30F6 then Char.ofNat 0x3096
      else c) :=
  katakana_to_hiragana_charwise ("カヵヶあz".toList)

/-- C2: whenever the comparable form of the answer with all whitespace
stripped equals こんにちは, `check_greeting` passes for both values of
allow_romaji; in particular the plain hiragana input and the half-width
katakana input ｺﾝﾆﾁﾊ both pass with romaji disallowed. -/
theorem check_greeting_accepts_canonical :
    (∀ (answer : List Char) (r : Bool),
        strip_all_spaces (to_hiragana_lower answer) = "こんにちは".toList →
        (check_greeting answer r).1 = true) ∧
    (check_greeting ("こんにちは".toList) false).1 = true ∧
    (check_greeting ("ｺﾝﾆﾁﾊ".toList) false).1 = true := by
  refine ⟨?_, by decide, by decide⟩
  intro answer r h
  simp only [check_greeting]
  rw [if_pos h]

/-- C2 witness: the general part applied to the half-width katakana input. -/
theorem check_greeting_accepts_canonical_witness :
    strip_all_spaces (to_hiragana_lower ("ｺﾝﾆﾁﾊ".toList)) = "こんにちは".toList ∧
    (check_greeting ("ｺﾝﾆﾁﾊ".toList) true).1 = true :=
  ⟨by decide, check_greeting_accepts_canonical.1 ("ｺﾝﾆﾁﾊ".toList) true (by decide)⟩

/-- C3: whenever the comparable form of the answer with all whitespace
stripped equals こんにちわ, `check_greeting` fails with exactly the targeted
wa/ha substitution hint, for both values of allow_romaji, because this
branch precedes the romaji path. -/
theorem check_greeting_mistake_hint (answer : List Char) (r : Bool)
    (h : strip_all_spaces (to_hiragana_lower answer) = "こんにちわ".toList) :
    check_greeting answer r = (false, greetMistakeMsg) := by
  simp only [check_greeting]
  have hne : strip_all_spaces (to_hiragana_lower answer) ≠ "こんにちは".toList := by
    rw [h]; decide
  rw [if_neg hne, if_pos h]

/-- C3 witness. -/
theorem check_greeting_mistake_hint_witness :
    strip_all_spaces (to_hiragana_lower ("こんにちわ".toList)) = "こんにちわ".toList ∧
    check_greeting ("こんにちわ".toList) true = (false, greetMistakeMsg) :=
  ⟨by decide, check_greeting_mistake_hint ("こんにちわ".toList) true (by decide)⟩

/-- C4: `check_self_intro` on わたしは ボブ です。 passes and extracts the
katakana-folded name ぼぶ; in general whenever the Japanese-script pattern
matches the collapsed, folded, normalized answer with a non-empty captured
name, the checker passes and returns exactly that captured name. -/
theorem check_self_intro_jp_name :
    check_self_intro ("わたしは ボブ です。".toList) false =
      (true, introOkMsg, some ("ぼぶ".toList)) ∧
    (∀ (answer : List Char) (r : Bool) (nm : List Char),
        jp_match (collapse_spaces (katakana_to_hiragana (normalize_nfkc answer))) = some nm →
        nm ≠ [] →
        check_self_intro answer r = (true, introOkMsg, some nm)) := by
  refine ⟨by decide, ?_⟩
  intro answer r nm h hne
  simp only [check_self_intro, h]
  rw [if_pos hne]

/-- C4 witness: the general part applied to the concrete input. -/
theorem check_self_intro_jp_name_witness :
    jp_match (collapse_spaces (katakana_to_hiragana
      (normalize_nfkc ("わたしは ボブ です。".toList)))) = some ("ぼぶ".toList) ∧
    check_self_intro ("わたしは ボブ です。".toList) true =
      (true, introOkMsg, some ("ぼぶ".toList)) :=
  ⟨by decide,
    check_self_intro_jp_name.2 ("わたしは ボブ です。".toList) true ("ぼぶ".toList)
      (by decide) (by decide)⟩

/-- C5 (code bug): the missing-topic-marker input does fail as claimed, but
わたしは です。 does not: the lazy capture group absorbs the single space
between は and です, giving the non-empty captured name consisting of one
space character, which Python's truthiness test accepts, so the checker
passes instead of failing. -/
theorem check_self_intro_empty_name_bug :
    check_self_intro ("わたし ボブ です".toList) false = (false, introPatMsg, none) ∧
    check_self_intro ("わたしは です。".toList) false = (true, introOkMsg, some [' ']) :=
  ⟨by decide, by decide⟩

/-- C6: the space-separated and the contiguous single-token vowel inputs
are both accepted by `check_vowels` with romaji disallowed. -/
theorem check_vowels_two_spellings :
    (check_vowels ("あ い う え お".toList) false).1 = true ∧
    (check_vowels ("あいうえお".toList) false).1 = true :=
  ⟨by decide, by decide⟩

/-- C7: with romaji disallowed, when the token sequence has exactly five
tokens and differs from the target, `check_vowels` fails with the hint
built from the full positional diff, which is non-empty and lists every
mismatched 1-based position with its expected character; in particular the
swapped input あ う い え お yields the hint naming positions 2 and 3 with
expected characters い and う. -/
theorem check_vowels_positional_hint :
    (∀ answer : List Char,
        (vowelTokens answer).length = 5 → vowelTokens answer ≠ vowelTarget →
        check_vowels answer false =
          (false, vowelHint (vowelWrongAux 1 (vowelTokens answer) vowelTarget)) ∧
        vowelWrongAux 1 (vowelTokens answer) vowelTarget ≠ []) ∧
    check_vowels ("あ う い え お".toList) false =
      (false, "힌트: 2번째는 い, 3번째는 う".toList) := by
  refine ⟨?_, by decide⟩
  intro answer h5 hne
  have hw : vowelWrongAux 1 (vowelTokens answer) vowelTarget ≠ [] := by
    intro hnil
    exact hne (vowelWrongAux_nil_eq _ _ _ (by rw [h5]; rfl) hnil)
  refine ⟨?_, hw⟩
  simp only [check_vowels]
  rw [if_neg hne, if_neg (by decide)]
  unfold vowelDiff
  rw [if_pos h5, if_pos hw]

/-- C7 witness: the general part applied to the swapped input. -/
theorem check_vowels_positional_hint_witness :
    (vowelTokens ("あ う い え お".toList)).length = 5 ∧
    check_vowels ("あ う い え お".toList) false =
      (false, vowelHint (vowelWrongAux 1 (vowelTokens ("あ う い え お".toList)) vowelTarget)) :=
  ⟨by decide,
    (check_vowels_positional_hint.1 ("あ う い え お".toList) (by decide) (by decide)).1⟩

/-- C8 counterexample: `to_hiragana_lower` is not idempotent.  On the
two-character input capital J followed by the combining caron U+030C, NFKC
leaves the pair alone (there is no precomposed capital J with caron) and
lowercasing yields j followed by the caron; the second pass recomposes this
pair under NFKC into the single character U+01F0, so applying the function
twice differs from applying it once. -/
theorem to_hiragana_lower_not_idempotent :
    to_hiragana_lower (to_hiragana_lower ['J', Char.ofNat 0x30C]) ≠
      to_hiragana_lower ['J', Char.ofNat 0x30C] := by decide

/-- C8 amended: `to_hiragana_lower` is idempotent on every input whose
comparable form is NFKC-normal, i.e. whenever normalization fixes the
already lowercased, folded result — the failure is confined to inputs whose
lowercased image recomposes under NFKC. -/
theorem to_hiragana_lower_idem_of_normal (x : List Char)
    (h : normalize_nfkc (to_hiragana_lower x) = to_hiragana_lower x) :
    to_hiragana_lower (to_hiragana_lower x) = to_hiragana_lower x := by
  have hx : to_hiragana_lower x = str_lower (katakana_to_hiragana (normalize_nfkc x)) := rfl
  calc to_hiragana_lower (to_hiragana_lower x)
      = str_lower (katakana_to_hiragana (normalize_nfkc (to_hiragana_lower x))) := rfl
    _ = str_lower (katakana_to_hiragana (to_hiragana_lower x)) := by rw [h]
    _ = str_lower (katakana_to_hiragana
          (str_lower (katakana_to_hiragana (normalize_nfkc x)))) := by rw [hx]
    _ = str_lower (katakana_to_hiragana (normalize_nfkc x)) := lower_kata_lower_kata _
    _ = to_hiragana_lower x := rfl

/-- C8 amended witness: the amended statement applied to the half-width
katakana input, whose comparable form is NFKC-normal. -/
theorem to_hiragana_lower_idem_of_normal_witness :
    normalize_nfkc (to_hiragana_lower ("ｺﾝﾆﾁﾊ aA".toList)) =
      to_hiragana_lower ("ｺﾝﾆﾁﾊ aA".toList) ∧
    to_hiragana_lower (to_hiragana_lower ("ｺﾝﾆﾁﾊ aA".toList)) =
      to_hiragana_lower ("ｺﾝﾆﾁﾊ aA".toList) :=
  ⟨by decide, to_hiragana_lower_idem_of_normal ("ｺﾝﾆﾁﾊ aA".toList) (by decide)⟩

/-- C9: the three checkers are total functions of the answer and the
allow_romaji flag — modelled here by their being functions on all of
`List Char × Bool` — and on every input each returns a defined outcome whose
message is non-empty. -/
theorem checkers_total_defined (answer : List Char) (r : Bool) :
    (check_greeting answer r).2 ≠ [] ∧
    (check_self_intro answer r).2.1 ≠ [] ∧
    (check_vowels answer r).2 ≠ [] := by
  refine ⟨?_, ?_, ?_⟩
  · simp only [check_greeting]
    repeat' split
    all_goals decide
  · simp only [check_self_intro, introRest]
    repeat' split
    all_goals first
      | exact (by decide : introOkMsg ≠ [])
      | exact (by decide : introPatMsg ≠ [])
  · simp only [check_vowels, vowelDiff]
    repeat' split
    all_goals first
      | decide
      | exact vowelHint_ne_nil _

/-- C9 witness: the statement applied at the empty string. -/
theorem checkers_total_defined_witness :
    (check_greeting [] true).2 ≠ [] ∧
    (check_self_intro [] true).2.1 ≠ [] ∧
    (check_vowels [] true).2 ≠ [] :=
  checkers_total_defined [] true

/-- C10: with allow_romaji true, any answer whose lowercased, NFKC
normalized text filtered to ASCII letters reads exactly konnichiwa passes
`check_greeting`, whatever else is mixed into the input: such an answer
contains Latin letters, so its whitespace-stripped comparable form can
equal neither of the two pure-kana comparison strings, and the romaji
branch fires. -/
theorem check_greeting_romaji_path (answer : List Char)
    (h : greeting_rom answer = "konnichiwa".toList) :
    (check_greeting answer true).1 = true := by
  simp only [check_greeting]
  split
  · rfl
  · split
    next h2 =>
      exact absurd (rom_nil_of_mistake answer h2) (by rw [h]; decide)
    next =>
      simp [h]

/-- C10 witness: the mixed input containing the わ-substitution mistake and
the romaji spelling passes. -/
theorem check_greeting_romaji_path_witness :
    greeting_rom ("こんにちわ konnichiwa!!".toList) = "konnichiwa".toList ∧
    (check_greeting ("こんにちわ konnichiwa!!".toList) true).1 = true :=
  ⟨by decide, check_greeting_romaji_path ("こんにちわ konnichiwa!!".toList) (by decide)⟩

end JpTutor
